import Mathlib

/-!
# Verification of the strew mailing-list server

A shallow embedding of the strew mailing-list relay (Go) in Lean 4, together
with theorems settling the specification claims about its subscriber storage,
command dispatch, message round-tripping, posting authorization and multi-list
delivery.

Conventions of the embedding:

* Go byte slices are modelled as `List Nat` (`Bytes`), one entry per byte.
  `bytes.Compare` is the lexicographic order, which is exactly the `<` of the
  Mathlib `LinearOrder (List Nat)` instance (`List.Lex (· < ·)`).
* The bolt database value for one list key is `Option Bytes`: `none` models a
  key that has never been written (bolt `Get` returns nil), `some v` a stored
  value `v` (bolt returns a non-nil slice for a stored empty value).
* Go strings at the dispatcher level are modelled as Lean `String`; equality
  of Go strings (byte equality) coincides with Lean `String` equality on the
  UTF-8 strings occurring here.
* `sort.Sort(byteSlice(...))` sorts ascending by `bytes.Compare`; any sorting
  algorithm yields the same value sequence, so it is modelled by
  `List.insertionSort (· ≤ ·)`.
* External I/O (bolt transactions, SMTP transport, `net/mail` parsing) is
  modelled as capabilities: storage updates are pure state transformers, the
  transport outcome is an oracle argument, and address-list parsing is a
  function argument.
-/

namespace Strew

/-! ## Bytes: Go byte slices -/

abbrev Bytes := List Nat

/-- The CSV separator byte `','` used by the subscriber store. -/
def sepByte : Nat := 44

/-- `bytes.Split(v, []byte(","))`.  Go semantics: always returns
`Count(v, sep) + 1` parts, so the empty (or nil) slice yields one empty
part. -/
def bytesSplit : Bytes → List Bytes
  | [] => [[]]
  | b :: rest =>
    if b = sepByte then [] :: bytesSplit rest
    else
      match bytesSplit rest with
      | [] => [[b]]
      | p :: ps => (b :: p) :: ps

/-- `bytes.Join(ps, []byte(","))`. -/
def bytesJoin : List Bytes → Bytes
  | [] => []
  | [p] => p
  | p :: q :: ps => p ++ sepByte :: bytesJoin (q :: ps)

/-- `sort.Sort(byteSlice(users))`: ascending by `bytes.Compare`.  The sorted
value sequence of a multiset is unique, so insertion sort is a faithful model
of Go's (unstable) sort. -/
def sortBytes (l : List Bytes) : List Bytes := l.insertionSort (· ≤ ·)

/-! ## The subscriber store (src/server.go, subscribe / unsubscribe /
subscribers / isSubscribed)

One list key of the bolt `subscriptions` bucket.  `none` = the key was never
written; `some v` = the CSV-encoded subscriber value `v` is stored. -/

/-- Errors surfaced by the storage layer (`errInvalidListID`). -/
inductive DBErr
  | invalidListID
deriving DecidableEq, Repr

/-- `Server.subscribe` (src/server.go:428-446): split the stored CSV value,
drop every entry equal to `user`, re-append `user`, sort ascending by byte
value, join and store.  A nil value (never-written key) splits into `[[]]`
exactly as in Go. -/
def subscribeOp (user : Bytes) (st : Option Bytes) : Option Bytes :=
  let vs := bytesSplit (st.getD [])
  let users := (vs.filter (fun v => v != user)) ++ [user]
  some (bytesJoin (sortBytes users))

/-- `Server.unsubscribe` (src/server.go:449-465): split, drop every entry
equal to `user`, sort, join and store. -/
def unsubscribeOp (user : Bytes) (st : Option Bytes) : Option Bytes :=
  let vs := bytesSplit (st.getD [])
  some (bytesJoin (sortBytes (vs.filter (fun v => v != user))))

/-- `Server.subscribers` (src/server.go:403-425): a nil `Get` (key never
written) fails with `errInvalidListID`; otherwise the split of the stored
value is returned.  Also models `store.Subscribers` of the boltdb backend,
which is the same algorithm modulo error wrapping. -/
def subscribersOp (st : Option Bytes) : Except DBErr (List Bytes) :=
  match st with
  | none => .error .invalidListID
  | some v => .ok (bytesSplit v)

/-- `Server.isSubscribed` (src/server.go:467-486): membership of `user` in
the split of the stored value (nil splits into `[[]]`). -/
def isSubscribedOp (user : Bytes) (st : Option Bytes) : Bool :=
  (bytesSplit (st.getD [])).contains user

/-- One subscribe/unsubscribe operation on a single list key. -/
inductive SubOp
  | sub (user : Bytes)
  | unsub (user : Bytes)
deriving DecidableEq, Repr

/-- The address an operation acts on. -/
def SubOp.user : SubOp → Bytes
  | .sub u => u
  | .unsub u => u

/-- Apply one operation to the stored value of a list key. -/
def applyOp (st : Option Bytes) : SubOp → Option Bytes
  | .sub u => subscribeOp u st
  | .unsub u => unsubscribeOp u st

/-- Apply a finite sequence of operations, left to right. -/
def applyOps (st : Option Bytes) (ops : List SubOp) : Option Bytes :=
  ops.foldl applyOp st

/-- The claimed invariant of the stored subscriber sequence: pairwise strictly
ascending in byte order, which is exactly "each entry at most once and in
ascending byte order".  A never-written key (`none`) is read back by the
mutation code as the single empty entry, so the invariant is stated on
`st.getD []`. -/
@[reducible] def invCSV (st : Option Bytes) : Prop :=
  (bytesSplit (st.getD [])).Pairwise (· < ·)

/-! ### Split/join lemmas -/

theorem bytesSplit_ne_nil (v : Bytes) : bytesSplit v ≠ [] := by
  match v with
  | [] => simp [bytesSplit]
  | b :: rest =>
    rw [bytesSplit]
    split
    · simp
    · split
      · simp
      · simp

theorem sep_not_mem_of_mem_bytesSplit {v : Bytes} {p : Bytes}
    (hp : p ∈ bytesSplit v) : sepByte ∉ p := by
  induction v generalizing p with
  | nil =>
    simp [bytesSplit] at hp
    simp [hp]
  | cons b rest ih =>
    rw [bytesSplit] at hp
    by_cases hb : b = sepByte
    · simp [hb] at hp
      rcases hp with h | h
      · simp [h]
      · exact ih h
    · simp [hb] at hp
      rcases hsplit : bytesSplit rest with _ | ⟨q, qs⟩
      · exact absurd hsplit (bytesSplit_ne_nil rest)
      · rw [hsplit] at hp
        simp at hp
        rcases hp with h | h
        · subst h
          intro hmem
          rcases List.mem_cons.mp hmem with h' | h'
          · exact hb h'.symm
          · exact ih (by rw [hsplit]; exact List.mem_cons_self q qs) h'
        · intro hmem
          exact ih (by rw [hsplit]; exact List.mem_cons_of_mem q h) hmem

theorem bytesSplit_append_sep (x r : Bytes) (hx : sepByte ∉ x) :
    bytesSplit (x ++ sepByte :: r) = x :: bytesSplit r := by
  induction x with
  | nil => simp [bytesSplit]
  | cons c cs ih =>
    have hc : c ≠ sepByte := fun h => hx (h ▸ List.mem_cons_self c cs)
    have hcs : sepByte ∉ cs := fun h => hx (List.mem_cons_of_mem c h)
    rw [List.cons_append, bytesSplit, if_neg hc, ih hcs]

theorem bytesSplit_of_no_sep (x : Bytes) (hx : sepByte ∉ x) :
    bytesSplit x = [x] := by
  induction x with
  | nil => rfl
  | cons c cs ih =>
    have hc : c ≠ sepByte := fun h => hx (h ▸ List.mem_cons_self c cs)
    have hcs : sepByte ∉ cs := fun h => hx (List.mem_cons_of_mem c h)
    rw [bytesSplit, if_neg hc, ih hcs]

theorem bytesSplit_bytesJoin (ps : List Bytes) (hps : ps ≠ [])
    (h : ∀ p ∈ ps, sepByte ∉ p) : bytesSplit (bytesJoin ps) = ps := by
  induction ps with
  | nil => exact absurd rfl hps
  | cons p qs ih =>
    match qs with
    | [] =>
      rw [bytesJoin]
      exact bytesSplit_of_no_sep p (h p (List.mem_cons_self p []))
    | q :: rs =>
      rw [bytesJoin, bytesSplit_append_sep p _ (h p (List.mem_cons_self p _)),
        ih (by simp) (fun x hx => h x (List.mem_cons_of_mem p hx))]

theorem bytesJoin_cons_cons (b : Nat) (p : Bytes) (ps : List Bytes) :
    bytesJoin ((b :: p) :: ps) = b :: bytesJoin (p :: ps) := by
  match ps with
  | [] => rfl
  | q :: rs => rw [bytesJoin, bytesJoin, List.cons_append]

theorem bytesJoin_bytesSplit (v : Bytes) : bytesJoin (bytesSplit v) = v := by
  induction v with
  | nil => rfl
  | cons b rest ih =>
    rw [bytesSplit]
    by_cases hb : b = sepByte
    · rw [if_pos hb]
      rcases hsplit : bytesSplit rest with _ | ⟨q, qs⟩
      · exact absurd hsplit (bytesSplit_ne_nil rest)
      · rw [hsplit] at ih
        rw [bytesJoin, List.nil_append, ih, hb]
    · rw [if_neg hb]
      rcases hsplit : bytesSplit rest with _ | ⟨q, qs⟩
      · exact absurd hsplit (bytesSplit_ne_nil rest)
      · rw [hsplit] at ih
        rw [bytesJoin_cons_cons, ih]

/-! ### Sorting lemmas -/

theorem pairwise_lt_nodup {l : List Bytes} (h : l.Pairwise (· < ·)) :
    l.Nodup :=
  h.imp ne_of_lt

theorem sortBytes_sorted (l : List Bytes) :
    (sortBytes l).Pairwise (· ≤ ·) :=
  List.sorted_insertionSort (· ≤ ·) l

theorem sortBytes_perm (l : List Bytes) : (sortBytes l).Perm l :=
  List.perm_insertionSort (· ≤ ·) l

theorem sortBytes_pairwise_lt {l : List Bytes} (h : l.Nodup) :
    (sortBytes l).Pairwise (· < ·) := by
  have hs : (sortBytes l).Pairwise (· ≤ ·) := sortBytes_sorted l
  have hn : (sortBytes l).Nodup := (sortBytes_perm l).nodup_iff.mpr h
  exact (List.Pairwise.and hs hn).imp (fun h => lt_of_le_of_ne h.1 h.2)

/-! ### Invariant preservation -/

theorem filter_user_nodup {vs : List Bytes} (h : vs.Nodup) (u : Bytes) :
    ((vs.filter (fun v => v != u)) ++ [u]).Nodup := by
  refine List.Nodup.append (h.filter _) (List.nodup_singleton u) ?_
  intro x hx hmem
  rcases List.mem_singleton.mp hmem with rfl
  have := List.of_mem_filter hx
  simp at this

theorem inv_subscribeOp (u : Bytes) (st : Option Bytes)
    (hu : sepByte ∉ u) (h : invCSV st) : invCSV (subscribeOp u st) := by
  rw [subscribeOp]
  set vs := bytesSplit (st.getD []) with hvs
  have hnd : vs.Nodup := pairwise_lt_nodup h
  have husers : ((vs.filter (fun v => v != u)) ++ [u]).Nodup :=
    filter_user_nodup hnd u
  set users := (vs.filter (fun v => v != u)) ++ [u] with husersdef
  have hsorted : (sortBytes users).Pairwise (· < ·) :=
    sortBytes_pairwise_lt husers
  have hne : sortBytes users ≠ [] := by
    intro hnil
    have := (sortBytes_perm users).length_eq
    rw [hnil] at this
    simp [husersdef] at this
  have hsep : ∀ p ∈ sortBytes users, sepByte ∉ p := by
    intro p hp
    have hp' : p ∈ users := ((sortBytes_perm users).mem_iff).mp hp
    rcases List.mem_append.mp hp' with h' | h'
    · exact sep_not_mem_of_mem_bytesSplit (hvs ▸ List.mem_of_mem_filter h')
    · rcases List.mem_singleton.mp h' with rfl
      exact hu
  show (bytesSplit ((some (bytesJoin (sortBytes users))).getD [])).Pairwise (· < ·)
  rw [Option.getD_some, bytesSplit_bytesJoin _ hne hsep]
  exact hsorted

theorem inv_unsubscribeOp (u : Bytes) (st : Option Bytes)
    (h : invCSV st) : invCSV (unsubscribeOp u st) := by
  rw [unsubscribeOp]
  set vs := bytesSplit (st.getD []) with hvs
  have hnd : vs.Nodup := pairwise_lt_nodup h
  set users := vs.filter (fun v => v != u) with husersdef
  have husers : users.Nodup := hnd.filter _
  have hsorted : (sortBytes users).Pairwise (· < ·) :=
    sortBytes_pairwise_lt husers
  by_cases hcase : sortBytes users = []
  · show (bytesSplit ((some (bytesJoin (sortBytes users))).getD [])).Pairwise (· < ·)
    rw [Option.getD_some, hcase, bytesJoin]
    simp [bytesSplit]
  · have hsep : ∀ q ∈ sortBytes users, sepByte ∉ q := by
      intro q hq
      have hq' : q ∈ users := ((sortBytes_perm users).mem_iff).mp hq
      exact sep_not_mem_of_mem_bytesSplit (hvs ▸ List.mem_of_mem_filter hq')
    show (bytesSplit ((some (bytesJoin (sortBytes users))).getD [])).Pairwise (· < ·)
    rw [Option.getD_some, bytesSplit_bytesJoin _ hcase hsep]
    exact hsorted

/-- The amended C1 proviso, per operation: carrying the CSV separator is
ruled out only for the address of a **subscribe**; unsubscribe addresses are
unconstrained (the filter of an unsubscribe can never put a new entry into
the stored value). -/
def SubOp.commaFreeSub : SubOp → Prop
  | .sub u => sepByte ∉ u
  | .unsub _ => True

instance : DecidablePred SubOp.commaFreeSub := fun op =>
  match op with
  | .sub u => inferInstanceAs (Decidable (sepByte ∉ u))
  | .unsub _ => inferInstanceAs (Decidable True)

/-! ## Claim C1 -/

/-- C1 (amended): for every finite sequence of subscribe/unsubscribe
operations on one list, starting from any state satisfying the stored-set
invariant (in particular the never-written state `none` and the
initialized-empty state `some []`), **provided every address passed to
subscribe is free of the CSV separator byte `','`** — unsubscribe addresses
are unconstrained — the stored subscriber sequence afterwards contains each
entry at most once and is in strictly ascending byte order. -/
theorem subscription_ops_sorted_nodup (ops : List SubOp) (st : Option Bytes)
    (hst : invCSV st) (hops : ∀ op ∈ ops, op.commaFreeSub) :
    invCSV (applyOps st ops) := by
  induction ops generalizing st with
  | nil => exact hst
  | cons op rest ih =>
    rw [applyOps, List.foldl_cons]
    have hstep : invCSV (applyOp st op) := by
      have hop : op.commaFreeSub := hops op (List.mem_cons_self op rest)
      match op with
      | .sub u => exact inv_subscribeOp u st hop hst
      | .unsub u => exact inv_unsubscribeOp u st hst
    exact ih (applyOp st op) hstep
      (fun o ho => hops o (List.mem_cons_of_mem op ho))

/-- Witness for C1: a concrete run of operations — including an unsubscribe
of the comma-carrying address `"x,y"`, which the amended proviso leaves
unconstrained — with both hypotheses discharged at the concrete input. -/
theorem subscription_ops_sorted_nodup_witness :
    invCSV (applyOps none
      [SubOp.sub [98], SubOp.sub [97], SubOp.unsub [120, 44, 121]]) :=
  subscription_ops_sorted_nodup
    [SubOp.sub [98], SubOp.sub [97], SubOp.unsub [120, 44, 121]]
    none (by decide) (by decide)

/-- Counterexample for C1 as literally stated: subscribing the single address
`"b,a"` (bytes `[98, 44, 97]`, which contains the CSV separator) to a fresh
list leaves the stored subscriber sequence `["", "b", "a"]`, which is not in
ascending byte order, so the invariant fails for an unrestricted address
alphabet. -/
theorem subscribe_comma_breaks_order :
    ¬ invCSV (applyOps none [SubOp.sub [98, 44, 97]]) := by decide

/-! ## Claim C2 -/

/-- C2 (amended): `subscribers` on a list key that was never initialized
fails with `errInvalidListID`; on an initialized list key it succeeds (never
an error) and returns the split of the stored CSV value — which for the
initialized-but-empty value is the one-element sequence containing the empty
entry, not the empty sequence. -/
theorem subscribers_uninitialized_vs_empty :
    subscribersOp none = Except.error DBErr.invalidListID ∧
    (∀ v, subscribersOp (some v) = Except.ok (bytesSplit v)) ∧
    subscribersOp (some []) = Except.ok [[]] :=
  ⟨rfl, fun _ => rfl, rfl⟩

/-- Counterexample for C2 as literally stated: an initialized list with no
subscribers (the stored value is the empty byte string, exactly what server
startup writes for a configured list) does **not** return the empty
sequence. -/
theorem subscribers_initialized_empty_not_empty_seq :
    subscribersOp (some []) ≠ Except.ok [] := by
  intro h
  rw [show subscribersOp (some []) = Except.ok [[]] from rfl] at h
  exact absurd (Except.ok.inj h) (by decide)

theorem filter_ne_of_not_mem {vs : List Bytes} {u : Bytes} (h : u ∉ vs) :
    vs.filter (fun v => v != u) = vs :=
  List.filter_eq_self.mpr (fun a ha => by
    simp only [bne_iff_ne, ne_eq, decide_eq_true_eq]
    exact fun heq => h (heq ▸ ha))

theorem filter_ne_append_perm {vs : List Bytes} {u : Bytes} (hnd : vs.Nodup)
    (hu : u ∈ vs) : (vs.filter (fun v => v != u) ++ [u]).Perm vs := by
  induction vs with
  | nil => cases hu
  | cons a as ih =>
    rcases List.nodup_cons.mp hnd with ⟨hna, hnd'⟩
    by_cases hau : u = a
    · subst hau
      rw [List.filter_cons_of_neg (by simp), filter_ne_of_not_mem hna]
      exact List.perm_append_singleton u as
    · have hu' : u ∈ as := by
        rcases List.mem_cons.mp hu with h | h
        · exact absurd h hau
        · exact h
      rw [List.filter_cons_of_pos (by
        simp only [bne_iff_ne, ne_eq, decide_eq_true_eq]
        exact fun h => hau h.symm)]
      rw [List.cons_append]
      exact (ih hnd' hu').cons a

/-! ## Claim C3 -/

/-- C3: on any stored value satisfying the invariant, subscribing an address
already present leaves the stored value unchanged, and unsubscribing an
address not present leaves the stored value unchanged.  (Neither operation
has an error path in the algorithm itself; the only failure mode in the code
is the surrounding bolt transaction, which is outside this model.) -/
theorem subscribe_unsubscribe_idempotent :
    (∀ v u, (bytesSplit v).Pairwise (· < ·) → u ∈ bytesSplit v →
      subscribeOp u (some v) = some v) ∧
    (∀ v u, (bytesSplit v).Pairwise (· < ·) → u ∉ bytesSplit v →
      unsubscribeOp u (some v) = some v) := by
  constructor
  · intro v u hs hu
    rw [subscribeOp]
    have hnd : (bytesSplit v).Nodup := pairwise_lt_nodup hs
    have hperm : ((bytesSplit ((some v).getD [])).filter (fun x => x != u)
        ++ [u]).Perm (bytesSplit v) := by
      rw [Option.getD_some]
      exact filter_ne_append_perm hnd hu
    have heq : sortBytes ((bytesSplit ((some v).getD [])).filter
        (fun x => x != u) ++ [u]) = bytesSplit v :=
      List.eq_of_perm_of_sorted ((sortBytes_perm _).trans hperm)
        (sortBytes_sorted _) (hs.imp le_of_lt)
    rw [heq, bytesJoin_bytesSplit]
  · intro v u hs hu
    rw [unsubscribeOp]
    have hfilter : (bytesSplit ((some v).getD [])).filter (fun x => x != u) =
        bytesSplit v := by
      rw [Option.getD_some]
      exact filter_ne_of_not_mem hu
    rw [hfilter]
    have heq : sortBytes (bytesSplit v) = bytesSplit v :=
      List.eq_of_perm_of_sorted (sortBytes_perm _)
        (sortBytes_sorted _) (hs.imp le_of_lt)
    rw [heq, bytesJoin_bytesSplit]

/-- Witness for C3: both parts applied at the stored value `"a,b"`
(bytes `[97, 44, 98]`), subscribing the member `"a"` and unsubscribing the
non-member `"c"`. -/
theorem subscribe_unsubscribe_idempotent_witness :
    subscribeOp [97] (some [97, 44, 98]) = some [97, 44, 98] ∧
    unsubscribeOp [99] (some [97, 44, 98]) = some [97, 44, 98] :=
  ⟨subscribe_unsubscribe_idempotent.1 [97, 44, 98] [97] (by decide) (by decide),
   subscribe_unsubscribe_idempotent.2 [97, 44, 98] [99] (by decide) (by decide)⟩

/-! ## The boltdb store (src/unnamed/part_000): lists bucket and soft delete

A bolt bucket is a key-sorted map; it is modelled as an association list with
strictly ascending keys.  `Put` replaces the value of an existing key or
inserts at the sorted position. -/

/-- `bolt.Bucket.Put`: replace or insert keeping keys sorted. -/
def bput (k v : Bytes) : List (Bytes × Bytes) → List (Bytes × Bytes)
  | [] => [(k, v)]
  | (k', v') :: rest =>
    if k = k' then (k, v) :: rest
    else if k < k' then (k, v) :: (k', v') :: rest
    else (k', v') :: bput k v rest

/-- `bolt.Bucket.Get`: `none` models the nil return for an absent key. -/
def bget (k : Bytes) (b : List (Bytes × Bytes)) : Option Bytes :=
  (b.find? (fun kv => kv.1 == k)).map (·.2)

/-- The two buckets of the boltdb `store`: `subscriptions` and `lists`. -/
structure BoltStore where
  subs : List (Bytes × Bytes)
  lsts : List (Bytes × Bytes)
deriving DecidableEq, Repr

/-- The `"1"` marker written by `AddList`. -/
def activeVal : Bytes := [49]

/-- The `"0"` marker written by `DelList`. -/
def inactiveVal : Bytes := [48]

/-- `store.AddList`: put `"1"` under the list key in the lists bucket. -/
def addListOp (l : Bytes) (s : BoltStore) : BoltStore :=
  { s with lsts := bput l activeVal s.lsts }

/-- `store.DelList` (src/unnamed/part_000:37-43): put `"0"` under the list
key in the lists bucket; the subscriptions bucket is untouched. -/
def delListOp (l : Bytes) (s : BoltStore) : BoltStore :=
  { s with lsts := bput l inactiveVal s.lsts }

/-- `store.Lists` (src/unnamed/part_000:107-125): iterate the lists bucket in
key order, returning the keys whose value equals `"1"`. -/
def listsOp (s : BoltStore) : List Bytes :=
  (s.lsts.filter (fun kv => kv.2 == activeVal)).map (·.1)

/-- `store.Subscribers` (src/unnamed/part_000:45-67): same algorithm as
`Server.subscribers`, reading the subscriptions bucket. -/
def storeSubscribersOp (l : Bytes) (s : BoltStore) : Except DBErr (List Bytes) :=
  subscribersOp (bget l s.subs)

/-- A bolt bucket invariant: keys strictly ascending (hence unique). -/
@[reducible] def sortedBucket (b : List (Bytes × Bytes)) : Prop :=
  b.Pairwise (fun x y => x.1 < y.1)

theorem bput_val {k v : Bytes} {b : List (Bytes × Bytes)}
    (hb : sortedBucket b) :
    ∀ kv ∈ bput k v b, kv.1 = k → kv.2 = v := by
  induction b with
  | nil =>
    intro kv hkv _
    rw [bput] at hkv
    rcases List.mem_singleton.mp hkv with rfl
    rfl
  | cons hd rest ih =>
    rcases List.pairwise_cons.mp hb with ⟨hhd, hrest⟩
    intro kv hkv hk
    rw [bput] at hkv
    by_cases h1 : k = hd.1
    · rw [if_pos h1] at hkv
      rcases List.mem_cons.mp hkv with rfl | hmem
      · rfl
      · exfalso
        have := hhd kv hmem
        rw [hk, h1] at this
        exact lt_irrefl _ this
    · rw [if_neg h1] at hkv
      by_cases h2 : k < hd.1
      · rw [if_pos h2] at hkv
        rcases List.mem_cons.mp hkv with rfl | hmem
        · rfl
        · rcases List.mem_cons.mp hmem with rfl | hmem'
          · exact absurd hk.symm h1
          · exact absurd (hk ▸ hhd kv hmem') (lt_asymm h2)
      · rw [if_neg h2] at hkv
        rcases List.mem_cons.mp hkv with rfl | hmem
        · exact absurd hk.symm h1
        · exact ih hrest kv hmem hk

theorem bput_idem (k v : Bytes) (b : List (Bytes × Bytes)) :
    bput k v (bput k v b) = bput k v b := by
  induction b with
  | nil => simp [bput]
  | cons hd rest ih =>
    rw [bput]
    by_cases h1 : k = hd.1
    · rw [if_pos h1, bput, if_pos rfl]
    · rw [if_neg h1]
      by_cases h2 : k < hd.1
      · rw [if_pos h2, bput, if_pos rfl]
      · rw [if_neg h2, bput, if_neg h1, if_neg h2, ih]

/-! ## Claim C9 -/

/-- C9: `delList(id)` idempotently marks the list inactive without touching
subscriber data: on any store whose lists bucket satisfies the bolt key
invariant, after `delList id` the id no longer appears in `lists()`, while
`subscribers` of every list (in particular `id` itself) returns exactly what
it returned before, and repeating `delList id` changes nothing. -/
theorem delList_soft_delete (s : BoltStore) (id q : Bytes)
    (h : sortedBucket s.lsts) :
    id ∉ listsOp (delListOp id s) ∧
    storeSubscribersOp q (delListOp id s) = storeSubscribersOp q s ∧
    delListOp id (delListOp id s) = delListOp id s := by
  refine ⟨?_, rfl, ?_⟩
  · intro hmem
    rw [listsOp] at hmem
    rcases List.mem_map.mp hmem with ⟨kv, hkv, hfst⟩
    have hval : kv.2 = inactiveVal :=
      bput_val h kv (List.mem_filter.mp hkv).1 hfst
    have hact : (kv.2 == activeVal) = true := (List.mem_filter.mp hkv).2
    rw [hval] at hact
    exact absurd (eq_of_beq hact) (by decide)
  · show delListOp id (delListOp id s) = delListOp id s
    simp [delListOp, bput_idem]

/-- Witness for C9: a concrete store holding list `"g"` (active, subscribers
`"a,b"`), with the bucket hypothesis discharged by computation. -/
theorem delList_soft_delete_witness :
    [103] ∉ listsOp (delListOp [103] ⟨[([103], [97, 44, 98])], [([103], [49])]⟩) ∧
    storeSubscribersOp [103]
        (delListOp [103] ⟨[([103], [97, 44, 98])], [([103], [49])]⟩) =
      storeSubscribersOp [103] ⟨[([103], [97, 44, 98])], [([103], [49])]⟩ ∧
    delListOp [103] (delListOp [103] ⟨[([103], [97, 44, 98])], [([103], [49])]⟩) =
      delListOp [103] ⟨[([103], [97, 44, 98])], [([103], [49])]⟩ :=
  delList_soft_delete ⟨[([103], [97, 44, 98])], [([103], [49])]⟩ [103] [103]
    (by decide)

/-! ## The Envelope (src/message.go)

Go strings at this level are modelled as Lean `String`; Go string equality is
byte equality, which agrees with Lean `String` equality on UTF-8 text. -/

/-- `Message` (src/message.go:16-28).  Field names follow the Go struct; the
Go zero value of each field is the empty string, provided as default. -/
structure Message where
  Subject : String := ""
  From : String := ""
  To : String := ""
  Cc : String := ""
  Bcc : String := ""
  Date : String := ""
  ID : String := ""
  InReplyTo : String := ""
  ContentType : String := ""
  XList : String := ""
  Body : String := ""
deriving DecidableEq, Repr

/-- `Message.Reply` (src/message.go:31-38).  Go stamps `Date` with
`time.Now()`; the clock is passed as the `now` argument.  All other fields
keep the Go zero value (empty string). -/
def Message.reply (msg : Message) (now : String) : Message :=
  { Subject := "Re: " ++ msg.Subject
    To := msg.From
    InReplyTo := msg.ID
    Date := now }

/-- `Message.MarshalText` (src/message.go:66-91).  Note the source emits the
misspelled header name `Messsage-ID` (three `s`). -/
def marshalText (msg : Message) : String :=
  "From: " ++ msg.From ++ "\r\n" ++
  "To: " ++ msg.To ++ "\r\n" ++
  "Cc: " ++ msg.Cc ++ "\r\n" ++
  "Bcc: " ++ msg.Bcc ++ "\r\n" ++
  (if msg.Date.length > 0 then "Date: " ++ msg.Date ++ "\r\n" else "") ++
  (if msg.ID.length > 0 then "Messsage-ID: " ++ msg.ID ++ "\r\n" else "") ++
  "In-Reply-To: " ++ msg.InReplyTo ++ "\r\n" ++
  (if msg.XList.length > 0 then
    "X-Mailing-List: " ++ msg.XList ++ "\r\n" ++
    "List-ID: " ++ msg.XList ++ "\r\n" ++
    "Sender: " ++ msg.XList ++ "\r\n" else "") ++
  (if msg.ContentType.length > 0 then
    "Content-Type: " ++ msg.ContentType ++ "\r\n" else "") ++
  "Subject: " ++ msg.Subject ++ "\r\n" ++
  "\r\n" ++ msg.Body

/-! ### The `mail.ReadMessage` capability

`Message.ReadFrom` (src/message.go:98-122) delegates header tokenization to
`net/mail` / `net/textproto`, an external collaborator.  The model below
implements that capability for the well-formed single-line CRLF header blocks
`MarshalText` emits: split into CRLF lines up to the first empty line, parse
each `Key: value` line, canonicalize keys exactly as
`textproto.CanonicalMIMEHeaderKey` does, and look fields up by canonical
key, with absent fields read as the empty string. -/

/-- `textproto` token characters (RFC 7230 tname): ASCII letters, digits and
the specials listed by code point. -/
def isTokenChar (c : Char) : Bool :=
  c.isAlphanum ||
    c.toNat ∈ [33, 35, 36, 37, 38, 39, 42, 43, 45, 46, 94, 95, 96, 124, 126]

/-- The case normalization of `CanonicalMIMEHeaderKey`: uppercase the first
letter and every letter following a hyphen, lowercase the rest. -/
def canonChars : List Char → Bool → List Char
  | [], _ => []
  | c :: cs, up =>
    if c = '-' then c :: canonChars cs true
    else (if up then c.toUpper else c.toLower) :: canonChars cs false

/-- `textproto.CanonicalMIMEHeaderKey`: keys containing a non-token byte are
returned unchanged. -/
def canonicalKey (s : String) : String :=
  if s.toList.all isTokenChar then ⟨canonChars s.toList true⟩ else s

/-- Split a character stream on CRLF pairs (Go semantics: n separators give
n+1 parts). -/
def splitCRLF : List Char → List (List Char)
  | [] => [[]]
  | '\r' :: '\n' :: rest => [] :: splitCRLF rest
  | c :: rest =>
    match splitCRLF rest with
    | [] => [[c]]
    | p :: ps => (c :: p) :: ps

/-- Split one header line at the first `':'`. -/
def splitAtColon : List Char → Option (List Char × List Char)
  | [] => none
  | ':' :: rest => some ([], rest)
  | c :: rest => (splitAtColon rest).map (fun kv => (c :: kv.1, kv.2))

/-- Parse one `Key: value` header line; the value drops leading spaces and
tabs as `textproto` does. -/
def parseHeaderLine (line : List Char) : Option (String × String) :=
  (splitAtColon line).map (fun kv =>
    (canonicalKey ⟨kv.1⟩, ⟨kv.2.dropWhile (fun c => c = ' ' || c = '\t')⟩))

/-- `Header.Get`: first value stored under the canonicalized key, or `""`. -/
def headerGet (hs : List (String × String)) (key : String) : String :=
  ((hs.find? (fun kv => kv.1 == canonicalKey key)).map (·.2)).getD ""

/-- `Message.ReadFrom` / `Message.UnmarshalText` on a zero `Message`:
parse headers up to the first empty line (failing like `mail.ReadMessage`
when there is none), take the raw remainder as the body, and read the nine
fields the Go code assigns via `Header.Get`.  `ContentType` and `XList` are
not assigned by `ReadFrom` and stay at the zero value. -/
def readFromModel (s : String) : Option Message :=
  let lines := splitCRLF s.toList
  let headerLines := lines.takeWhile (fun l => !l.isEmpty)
  match lines.dropWhile (fun l => !l.isEmpty) with
  | [] => none
  | _ :: bodyLines =>
    match headerLines.mapM parseHeaderLine with
    | none => none
    | some hs =>
      some { Subject := headerGet hs "Subject"
             From := headerGet hs "From"
             ID := headerGet hs "Message-ID"
             InReplyTo := headerGet hs "In-Reply-To"
             Body := ⟨List.intercalate ['\r', '\n'] bodyLines⟩
             To := headerGet hs "To"
             Cc := headerGet hs "Cc"
             Bcc := headerGet hs "Bcc"
             Date := headerGet hs "Date" }

/-! ## Claim C4 -/

/-- A concrete envelope with a non-empty message id. -/
def msgC4 : Message :=
  { Subject := "hello", From := "alice@example.com", To := "bob@example.com",
    Date := "Mon, 02 Jan 2006", ID := "<1@example.com>",
    InReplyTo := "<0@example.com>", Body := "hi there" }

/-- C4 (code bug, evaluated at the failing input): serializing `msgC4` and
parsing the result back reproduces every claimed field **except** the message
id, which comes back empty: `MarshalText` writes the misspelled header name
`Messsage-ID` while `ReadFrom` reads `Message-ID`, so the id written by the
serializer is invisible to the parser and the round-trip law fails. -/
theorem marshal_readFrom_loses_message_id :
    readFromModel (marshalText msgC4) = some { msgC4 with ID := "" } ∧
    msgC4.ID ≠ "" := by decide

/-! ## Configuration and the String-level subscriber store

The dispatcher reads and writes the same bolt bucket as the byte-level model
above, through Go strings.  At this level the store for all lists is a map
from list ID to the optional stored CSV string. -/

/-- The per-list stored CSV values, keyed by list ID (`none` = key never
written). -/
def StoreS := String → Option String

/-- `bytes.Split(v, ",")` at the character level. -/
def splitComma : List Char → List (List Char)
  | [] => [[]]
  | ',' :: rest => [] :: splitComma rest
  | c :: rest =>
    match splitComma rest with
    | [] => [[c]]
    | p :: ps => (c :: p) :: ps

/-- `bytes.Join(ps, ",")` at the character level. -/
def joinComma : List (List Char) → List Char
  | [] => []
  | [p] => p
  | p :: q :: ps => p ++ ',' :: joinComma (q :: ps)

/-- `Server.isSubscribed` as called by the dispatcher: membership of the user
in the split of the stored value for `list`. -/
def isSubscribedS (st : StoreS) (user list : String) : Bool :=
  (splitComma ((st list).getD "").toList).contains user.toList

/-- `Server.subscribe` as called by the dispatcher: the byte-level
read-filter-append-sort-join algorithm on the key `list`. -/
def subscribeS (st : StoreS) (user list : String) : StoreS :=
  fun k =>
    if k = list then
      some ⟨joinComma (((splitComma ((st list).getD "").toList).filter
        (fun v => v != user.toList) ++ [user.toList]).insertionSort (· ≤ ·))⟩
    else st k

/-- `Server.unsubscribe` as called by the dispatcher. -/
def unsubscribeS (st : StoreS) (user list : String) : StoreS :=
  fun k =>
    if k = list then
      some ⟨joinComma (((splitComma ((st list).getD "").toList).filter
        (fun v => v != user.toList)).insertionSort (· ≤ ·))⟩
    else st k

/-- The Go `List` configuration record (src/server.go:547-556); named
`MList` because `List` is taken in Lean. -/
structure MList where
  ID : String
  Name : String := ""
  Description : String := ""
  Address : String
  Hidden : Bool := false
  SubscribersOnly : Bool := false
  Posters : List String := []
  Bcc : List String := []
deriving DecidableEq, Repr

/-- The parts of `Config` (src/server.go:510-520) the dispatcher consults.
`cfg.Lists` is a Go map iterated by `lookupList` and the `lists`/
`subscriptions` handlers; it is modelled as a list of records (one fixed
iteration order). -/
structure Config where
  CommandAddress : String
  Lists : List MList
deriving DecidableEq, Repr

/-- `Server.lookupList` (src/server.go:347-355): the first configured list
whose ID or address equals `key`. -/
def lookupList (cfg : Config) (key : String) : Option MList :=
  cfg.Lists.find? (fun l => key == l.ID || key == l.Address)

/-- `Server.canPost` (src/server.go:357-373). -/
def canPost (st : StoreS) (sender : String) (list : MList) : Bool :=
  if list.SubscribersOnly && !(isSubscribedS st sender list.ID) then false
  else if !list.Posters.isEmpty then list.Posters.contains sender
  else true

/-- `strings.HasPrefix`. -/
def hasPrefixS (s p : String) : Bool :=
  p.toList.isPrefixOf s.toList

/-- `strings.TrimPrefix`. -/
def trimPrefixS (s p : String) : String :=
  if hasPrefixS s p then ⟨s.toList.drop p.toList.length⟩ else s

/-! ## Command dispatch (src/server.go:135-150) -/

/-- The six dispatch outcomes of `Server.handleCommand`. -/
inductive CmdKind
  | showLists
  | help
  | showSubscriptions
  | subscribe
  | unsubscribe
  | unknown
deriving DecidableEq, Repr

/-- The subject dispatch of `Server.handleCommand`: exact matches first, then
`strings.HasPrefix(subject, "subscribe")` and
`strings.HasPrefix(subject, "unsubscribe")` — both **without** a trailing
space — and `unknown` otherwise. -/
def classifyCommand (subject : String) : CmdKind :=
  if subject = "lists" then .showLists
  else if subject = "help" then .help
  else if subject = "subscriptions" then .showSubscriptions
  else if hasPrefixS subject "subscribe" then .subscribe
  else if hasPrefixS subject "unsubscribe" then .unsubscribe
  else .unknown

/-- Modelled from the spec: the dispatch table as the claim states it, with
the prefixes `"subscribe "` and `"unsubscribe "` each carrying a trailing
space.  Used only to compare the claimed table with `classifyCommand`. -/
def classifySpecSide (subject : String) : CmdKind :=
  if subject = "lists" then .showLists
  else if subject = "help" then .help
  else if subject = "subscriptions" then .showSubscriptions
  else if hasPrefixS subject "subscribe " then .subscribe
  else if hasPrefixS subject "unsubscribe " then .unsubscribe
  else .unknown

/-- What a command handler hands to the mail transport: the reply envelope
and the recipient list of the `send` call. -/
structure Outbound where
  reply : Message
  recipients : List String
deriving DecidableEq, Repr

/-- The per-list block printed by the `lists` and `subscriptions` handlers. -/
def listInfoBlock (l : MList) : String :=
  "ID: " ++ l.ID ++ "\r\nName: " ++ l.Name ++ "\r\nDescription: " ++
    l.Description ++ "\r\nAddress: " ++ l.Address ++ "\r\n\r\n"

/-- The footer printed by the `lists` and `subscriptions` handlers. -/
def subscribeFooter (cfg : Config) : String :=
  "\r\nTo subscribe to a mailing list, email " ++ cfg.CommandAddress ++
    " with 'subscribe <list-id>' as the subject.\r\n"

/-- `Server.commandInfo` (src/server.go:489-508). -/
def commandInfo (cfg : Config) : String :=
  "    help\r\n      Information about valid commands\r\n\r\n" ++
  "    list\r\n      Retrieve a list of available mailing lists\r\n\r\n" ++
  "    subscriptions\r\n      Retrieve a list of subscribed mailing lists\r\n\r\n" ++
  "    subscribe <list-id>\r\n      Subscribe to <list-id>\r\n\r\n" ++
  "    unsubscribe <list-id>\r\n      Unsubscribe from <list-id>\r\n\r\n" ++
  "To send a command, email " ++ cfg.CommandAddress ++
    " with the command as the subject.\r\n"

/-- `Server.handleShowLists` (src/server.go:152-178). -/
def handleShowLists (cfg : Config) (now : String) (msg : Message) : Outbound :=
  { reply := { msg.reply now with
      From := cfg.CommandAddress
      Body := "Available mailing lists:\r\n\r\n" ++
        String.join ((cfg.Lists.filter (fun l => !l.Hidden)).map listInfoBlock) ++
        subscribeFooter cfg }
    recipients := [msg.From] }

/-- `Server.handleHelp` (src/server.go:180-187). -/
def handleHelp (cfg : Config) (now : String) (msg : Message) : Outbound :=
  { reply := { msg.reply now with
      From := cfg.CommandAddress
      Body := commandInfo cfg }
    recipients := [msg.From] }

/-- `Server.handleShowSubscriptions` (src/server.go:189-219). -/
def handleShowSubscriptions (cfg : Config) (st : StoreS) (now : String)
    (msg : Message) : Outbound :=
  { reply := { msg.reply now with
      From := cfg.CommandAddress
      Body := "Mailing lists:\r\n\r\n" ++
        String.join ((cfg.Lists.filter
          (fun l => !l.Hidden && isSubscribedS st msg.From l.ID)).map
            listInfoBlock) ++
        subscribeFooter cfg }
    recipients := [msg.From] }

/-- `Server.handleSubscribe` (src/server.go:221-248).  Returns the updated
store and the transport call.  Note: none of the three reply branches assigns
`From`, so the reply keeps the zero value `""`. -/
def handleSubscribe (cfg : Config) (st : StoreS) (now : String)
    (msg : Message) : StoreS × Outbound :=
  let listID := trimPrefixS msg.Subject "subscribe "
  match lookupList cfg listID with
  | none =>
    (st,
     { reply := { msg.reply now with
         Body := "Unable to subscribe to " ++ listID ++
           "  - it is not a valid mailing list.\r\n" }
       recipients := [msg.From] })
  | some list =>
    if isSubscribedS st msg.From list.ID then
      (st,
       { reply := { msg.reply now with
           Body := "You are already subscribed to " ++ list.ID ++ "\r\n" }
         recipients := [msg.From] })
    else
      (subscribeS st msg.From list.ID,
       { reply := { msg.reply now with
           Body := "You are now subscribed to " ++ list.ID ++ "\r\n" }
         recipients := [msg.From] })

/-- `Server.handleUnsubscribe` (src/server.go:250-277).  Like
`handleSubscribe`, no branch assigns `From`. -/
def handleUnsubscribe (cfg : Config) (st : StoreS) (now : String)
    (msg : Message) : StoreS × Outbound :=
  let listID := trimPrefixS msg.Subject "unsubscribe "
  match lookupList cfg listID with
  | none =>
    (st,
     { reply := { msg.reply now with
         Body := "Unable to unsubscribe from " ++ listID ++
           "  - it is not a valid mailing list.\r\n" }
       recipients := [msg.From] })
  | some list =>
    if !isSubscribedS st msg.From list.ID then
      (st,
       { reply := { msg.reply now with
           Body := "You aren't subscribed to " ++ list.ID ++ "\r\n" }
         recipients := [msg.From] })
    else
      (unsubscribeS st msg.From list.ID,
       { reply := { msg.reply now with
           Body := "You are now unsubscribed from " ++ list.ID ++ "\r\n" }
         recipients := [msg.From] })

/-- `Server.handleUnknownCommand` (src/server.go:279-289). -/
def handleUnknownCommand (cfg : Config) (now : String) (msg : Message) :
    Outbound :=
  { reply := { msg.reply now with
      From := cfg.CommandAddress
      Body := msg.Subject ++ " is not a valid command.\r\n\r\n" ++
        "Valid commands are:\r\n\r\n" ++ commandInfo cfg }
    recipients := [msg.From] }

/-- `Server.handleCommand` (src/server.go:135-150): dispatch on the subject
and run the handler; handlers that do not mutate the store return it
unchanged. -/
def handleCommand (cfg : Config) (st : StoreS) (now : String)
    (msg : Message) : StoreS × Outbound :=
  match classifyCommand msg.Subject with
  | .showLists => (st, handleShowLists cfg now msg)
  | .help => (st, handleHelp cfg now msg)
  | .showSubscriptions => (st, handleShowSubscriptions cfg st now msg)
  | .subscribe => handleSubscribe cfg st now msg
  | .unsubscribe => handleUnsubscribe cfg st now msg
  | .unknown => (st, handleUnknownCommand cfg now msg)

/-! ## Claim C7 -/

/-- C7: posting authorization.  (a) The subscribers-only check comes first:
if `SubscribersOnly` is set and the sender is not subscribed, the post is
denied regardless of the whitelist.  (b) With a non-empty poster whitelist, a
sender not on it is denied.  (c) With `SubscribersOnly` unset and an empty
whitelist, posting is unrestricted. -/
theorem canPost_precedence (st : StoreS) (sender : String) (l : MList) :
    (l.SubscribersOnly = true → isSubscribedS st sender l.ID = false →
      canPost st sender l = false) ∧
    (l.Posters ≠ [] → l.Posters.contains sender = false →
      canPost st sender l = false) ∧
    (l.SubscribersOnly = false → l.Posters = [] →
      canPost st sender l = true) := by
  refine ⟨?_, ?_, ?_⟩
  · intro h1 h2
    simp [canPost, h1, h2]
  · intro h1 h2
    rw [canPost]
    by_cases hso : (l.SubscribersOnly && !(isSubscribedS st sender l.ID)) = true
    · rw [if_pos hso]
    · rw [if_neg hso, if_pos (by simp [List.isEmpty_iff, h1])]
      exact h2
  · intro h1 h2
    simp [canPost, h1, h2]

/-- Witness for C7: the three parts at concrete lists — `lA` is
subscribers-only with the sender whitelisted (still denied), `lB` has a
whitelist excluding the sender, `lC` is unrestricted. -/
theorem canPost_precedence_witness :
    canPost (fun _ => none) "s@x"
      { ID := "a", Address := "a@x", SubscribersOnly := true,
        Posters := ["s@x"] } = false ∧
    canPost (fun _ => none) "s@x"
      { ID := "b", Address := "b@x", Posters := ["p@x"] } = false ∧
    canPost (fun _ => none) "s@x" { ID := "c", Address := "c@x" } = true :=
  ⟨(canPost_precedence (fun _ => none) "s@x" _).1 (by decide) (by decide),
   (canPost_precedence (fun _ => none) "s@x" _).2.1 (by decide) (by decide),
   (canPost_precedence (fun _ => none) "s@x" _).2.2 (by decide) (by decide)⟩

/-! ## Claims C5 and C6: shared concrete inputs -/

/-- A configuration with one visible list `golang`. -/
def cfg0 : Config :=
  { CommandAddress := "cmd@example.com"
    Lists := [{ ID := "golang", Address := "golang@example.com" }] }

/-- The empty store: no list key ever written. -/
def st0 : StoreS := fun _ => none

/-- A subscribe command addressed to the command address. -/
def msgSubGolang : Message :=
  { Subject := "subscribe golang", From := "user@example.com",
    To := "cmd@example.com", ID := "<42@example.com>" }

/-- A help command addressed to the command address. -/
def msgHelp : Message :=
  { Subject := "help", From := "user@example.com", To := "cmd@example.com",
    ID := "<43@example.com>" }

/-- An unknown command. -/
def msgFrob : Message :=
  { Subject := "frobnicate", From := "user@example.com",
    To := "cmd@example.com", ID := "<44@example.com>" }

/-! ## Claim C5 -/

/-- C5 (amended): for every command envelope, the dispatched handler's reply
has subject `"Re: " ++` original, in-reply-to = the original message id, and
the original sender as both the `To` header and the sole transport recipient;
`From` is the configured command address for the `lists`, `help`,
`subscriptions` and unknown-command handlers, but is left at the zero value
`""` by the subscribe and unsubscribe handlers, which never assign it. -/
theorem command_reply_shape (cfg : Config) (st : StoreS) (now : String)
    (msg : Message) :
    (handleCommand cfg st now msg).2.reply.Subject = "Re: " ++ msg.Subject ∧
    (handleCommand cfg st now msg).2.reply.InReplyTo = msg.ID ∧
    (handleCommand cfg st now msg).2.reply.To = msg.From ∧
    (handleCommand cfg st now msg).2.recipients = [msg.From] ∧
    ((classifyCommand msg.Subject = CmdKind.subscribe ∨
      classifyCommand msg.Subject = CmdKind.unsubscribe) →
      (handleCommand cfg st now msg).2.reply.From = "") ∧
    (classifyCommand msg.Subject ≠ CmdKind.subscribe →
      classifyCommand msg.Subject ≠ CmdKind.unsubscribe →
      (handleCommand cfg st now msg).2.reply.From = cfg.CommandAddress) := by
  cases hcl : classifyCommand msg.Subject with
  | showLists =>
    simp [handleCommand, hcl, handleShowLists, Message.reply]
  | help =>
    simp [handleCommand, hcl, handleHelp, Message.reply]
  | showSubscriptions =>
    simp [handleCommand, hcl, handleShowSubscriptions, Message.reply]
  | unknown =>
    simp [handleCommand, hcl, handleUnknownCommand, Message.reply]
  | subscribe =>
    rcases hlook : lookupList cfg (trimPrefixS msg.Subject "subscribe ") with
      _ | l
    · simp [handleCommand, hcl, handleSubscribe, hlook, Message.reply]
    · by_cases hsub : isSubscribedS st msg.From l.ID = true
      · simp [handleCommand, hcl, handleSubscribe, hlook, hsub, Message.reply]
      · simp [handleCommand, hcl, handleSubscribe, hlook, hsub, Message.reply]
  | unsubscribe =>
    rcases hlook : lookupList cfg (trimPrefixS msg.Subject "unsubscribe ") with
      _ | l
    · simp [handleCommand, hcl, handleUnsubscribe, hlook, Message.reply]
    · by_cases hsub : isSubscribedS st msg.From l.ID = true
      · simp [handleCommand, hcl, handleUnsubscribe, hlook, hsub, Message.reply]
      · simp [handleCommand, hcl, handleUnsubscribe, hlook, hsub, Message.reply]

/-- Witness for C5: the implications discharged at concrete commands — a
subscribe command gets `From = ""`, a help command gets the command
address. -/
theorem command_reply_shape_witness :
    (handleCommand cfg0 st0 "2018-01-01T00:00:00Z" msgSubGolang).2.reply.From
      = "" ∧
    (handleCommand cfg0 st0 "2018-01-01T00:00:00Z" msgHelp).2.reply.From
      = cfg0.CommandAddress :=
  ⟨(command_reply_shape cfg0 st0 "2018-01-01T00:00:00Z" msgSubGolang).2.2.2.2.1
      (Or.inl (by decide)),
   (command_reply_shape cfg0 st0 "2018-01-01T00:00:00Z" msgHelp).2.2.2.2.2
      (by decide) (by decide)⟩

/-- Counterexample for C5 as literally stated: for the subscribe command
`msgSubGolang` (a valid list, so the subscription is performed and confirmed),
the reply's `From` is **not** the configured command address — the
subscribe/unsubscribe handlers never set it, so it stays empty. -/
theorem handleSubscribe_reply_from_not_command_address :
    (handleCommand cfg0 st0 "2018-01-01T00:00:00Z" msgSubGolang).2.reply.From
      ≠ cfg0.CommandAddress := by decide

/-! ## Claim C6 -/

/-- Counterexample for C6 as literally stated: the subject `"subscribers"`
matches neither an exact command word nor a `"subscribe "`-with-trailing-space
prefix, so under the claimed table it is an unknown command; the code
dispatches on `strings.HasPrefix(subject, "subscribe")` without the trailing
space and treats it as a subscribe command. -/
theorem classify_subscribers_mismatch :
    classifyCommand "subscribers" = CmdKind.subscribe ∧
    classifySpecSide "subscribers" = CmdKind.unknown := by decide

/-- C6 (amended): dispatch is by case-sensitive exact match on `"lists"`,
`"help"` and `"subscriptions"`, then by the prefixes `"subscribe"` and
`"unsubscribe"` **without** a required trailing space (checked in that
order), and every subject matching none of these receives the
unknown-command reply whose body carries the help text. -/
theorem classify_dispatch_amended :
    (∀ s, classifyCommand s = CmdKind.showLists ↔ s = "lists") ∧
    (∀ s, classifyCommand s = CmdKind.help ↔ s = "help") ∧
    (∀ s, classifyCommand s = CmdKind.showSubscriptions ↔
      s = "subscriptions") ∧
    (∀ s, classifyCommand s = CmdKind.subscribe ↔
      (s ≠ "lists" ∧ s ≠ "help" ∧ s ≠ "subscriptions" ∧
        hasPrefixS s "subscribe" = true)) ∧
    (∀ s, classifyCommand s = CmdKind.unsubscribe ↔
      (s ≠ "lists" ∧ s ≠ "help" ∧ s ≠ "subscriptions" ∧
        hasPrefixS s "subscribe" = false ∧
        hasPrefixS s "unsubscribe" = true)) ∧
    (∀ cfg st now msg, classifyCommand msg.Subject = CmdKind.unknown →
      (handleCommand cfg st now msg).2.reply.Body =
        msg.Subject ++ " is not a valid command.\r\n\r\n" ++
          "Valid commands are:\r\n\r\n" ++ commandInfo cfg) := by
  refine ⟨?_, ?_, ?_, ?_, ?_, ?_⟩
  · intro s
    unfold classifyCommand
    split_ifs <;> simp_all
  · intro s
    unfold classifyCommand
    split_ifs <;> simp_all
  · intro s
    unfold classifyCommand
    split_ifs <;> simp_all
  · intro s
    unfold classifyCommand
    split_ifs <;> simp_all
  · intro s
    unfold classifyCommand
    split_ifs <;> simp_all
  · intro cfg st now msg hcl
    simp [handleCommand, hcl, handleUnknownCommand, Message.reply]

/-- Witness for C6: the unknown-command conjunct at the concrete subject
`"frobnicate"`. -/
theorem classify_dispatch_amended_witness :
    (handleCommand cfg0 st0 "2018-01-01T00:00:00Z" msgFrob).2.reply.Body =
      "frobnicate" ++ " is not a valid command.\r\n\r\n" ++
        "Valid commands are:\r\n\r\n" ++ commandInfo cfg0 :=
  classify_dispatch_amended.2.2.2.2.2 cfg0 st0 "2018-01-01T00:00:00Z" msgFrob
    (by decide)

/-! ## Post handling (src/server.go:291-345)

`net/mail.ParseAddressList` is an external collaborator; it is passed as the
capability `parseAL`, where `none` models a parse error (the field is
skipped) and `some addrs` the parsed address strings.  The SMTP sends inside
the per-list loop are a capability as well: `res` gives the outcome of the
send performed for an attempt (the not-authorized notice for a denied list,
the relayed copy for an allowed one), `none` meaning success and `some e`
the error `e`. -/

/-- `Server.lookupLists` (src/server.go:330-345): walk `To`, `Cc`, `Bcc`;
skip a field whose address-list fails to parse; look every parsed address up
and keep each hit — one entry **per matching address occurrence**, with no
deduplication. -/
def lookupLists (parseAL : String → Option (List String)) (cfg : Config)
    (msg : Message) : List MList :=
  [msg.To, msg.Cc, msg.Bcc].flatMap (fun field =>
    match parseAL field with
    | none => []
    | some addrs => addrs.filterMap (lookupList cfg))

/-- One iteration of the `handleMessage` loop: either the denial notice sent
to the poster (`notify`) or the relay to the list's subscribers
(`deliver`). -/
inductive PostAction
  | notify (list : MList)
  | deliver (list : MList)
deriving DecidableEq, Repr

/-- The list an attempt concerns. -/
def PostAction.target : PostAction → MList
  | .notify l => l
  | .deliver l => l

/-- The branch `handleMessage` takes for one matched list: the authorization
check `canPost` decides between relaying and notifying. -/
def postAction (st : StoreS) (sender : String) (l : MList) : PostAction :=
  if canPost st sender l then .deliver l else .notify l

/-- The `for _, list := range lists` loop of `Server.handleMessage`
(src/server.go:297-311), with the running `last` error accumulator: every
matched list is attempted, and each attempt's error (if any) overwrites
`last`. -/
def handleMessageLoop {E : Type} (st : StoreS) (sender : String)
    (res : PostAction → Option E) :
    List MList → Option E → List PostAction × Option E
  | [], last => ([], last)
  | l :: rest, last =>
    let act := postAction st sender l
    let last' :=
      match res act with
      | some e => some e
      | none => last
    let next := handleMessageLoop st sender res rest last'
    (act :: next.1, next.2)

/-- `Server.handleNoDestination` (src/server.go:315-320). -/
def handleNoDestination (cfg : Config) (now : String) (msg : Message) :
    Outbound :=
  { reply := { msg.reply now with
      From := cfg.CommandAddress
      Body := "No mailing lists addressed. Your message has not been delivered.\r\n" }
    recipients := [msg.From] }

/-- `Server.handleMessage` (src/server.go:291-313): resolve the matched
lists; with none, reply to the sender; otherwise run the per-list loop with
`last` starting at `nil` and return the attempts and the final error. -/
def handleMessage {E : Type} (parseAL : String → Option (List String))
    (cfg : Config) (st : StoreS) (res : PostAction → Option E) (now : String)
    (msg : Message) : Sum Outbound (List PostAction × Option E) :=
  let lists := lookupLists parseAL cfg msg
  if lists.isEmpty then Sum.inl (handleNoDestination cfg now msg)
  else Sum.inr (handleMessageLoop st msg.From res lists none)

theorem handleMessageLoop_spec {E : Type} (st : StoreS) (sender : String)
    (res : PostAction → Option E) (ls : List MList) (last : Option E) :
    handleMessageLoop st sender res ls last =
      (ls.map (postAction st sender),
       match ((ls.map (postAction st sender)).filterMap res).getLast? with
       | some e => some e
       | none => last) := by
  induction ls generalizing last with
  | nil => simp [handleMessageLoop]
  | cons l rest ih =>
    rw [handleMessageLoop]
    cases hres : res (postAction st sender l) with
    | none =>
      simp only [ih, List.map_cons, List.filterMap_cons, hres]
    | some e =>
      simp only [ih, List.map_cons, List.filterMap_cons, hres]
      cases herrs : (rest.map (postAction st sender)).filterMap res with
      | nil => simp
      | cons x xs =>
        rw [List.getLast?_cons_cons]
        rcases hlast : (x :: xs).getLast? with _ | y
        · simp [List.getLast?_eq_none_iff] at hlast
        · rfl

/-! ## Claim C8 -/

/-- C8: when at least one configured list is matched, every matched list is
attempted (one `PostAction` per occurrence, regardless of the outcomes of
earlier attempts), and the error returned to the caller is exactly the
**last** attempt error in loop order — earlier failures are superseded. -/
theorem handleMessage_last_error_wins {E : Type}
    (parseAL : String → Option (List String)) (cfg : Config) (st : StoreS)
    (res : PostAction → Option E) (now : String) (msg : Message)
    (h : lookupLists parseAL cfg msg ≠ []) :
    handleMessage parseAL cfg st res now msg =
      Sum.inr ((lookupLists parseAL cfg msg).map (postAction st msg.From),
        (((lookupLists parseAL cfg msg).map (postAction st msg.From)).filterMap
          res).getLast?) := by
  have hne : (lookupLists parseAL cfg msg).isEmpty = false := by
    simp [List.isEmpty_iff, h]
  simp only [handleMessage, hne, Bool.false_eq_true, if_false]
  rw [handleMessageLoop_spec]
  rcases hlast : (((lookupLists parseAL cfg msg).map
      (postAction st msg.From)).filterMap res).getLast? with _ | e
  · rfl
  · rfl

/-- Witness for C8: a post matching two unrestricted lists whose deliveries
fail with errors `1` and `2`; both lists are attempted and only the last
error `2` is returned. -/
theorem handleMessage_last_error_wins_witness :
    handleMessage
        (fun s => if s = "a@x, b@x" then some ["a@x", "b@x"] else none)
        { CommandAddress := "cmd@x",
          Lists := [{ ID := "a", Address := "a@x" },
                    { ID := "b", Address := "b@x" }] }
        st0
        (fun a =>
          if a = PostAction.deliver { ID := "a", Address := "a@x" } then some 1
          else if a = PostAction.deliver { ID := "b", Address := "b@x" } then
            some 2
          else (none : Option Nat))
        "2018-01-01T00:00:00Z"
        { Subject := "hi", From := "user@x", To := "a@x, b@x" } =
      Sum.inr ([PostAction.deliver { ID := "a", Address := "a@x" },
                PostAction.deliver { ID := "b", Address := "b@x" }],
        some 2) := by
  rw [handleMessage_last_error_wins _ _ _ _ _ _ (by decide)]
  decide

/-! ## Claim C10 -/

theorem count_filterMap_eq_countP {α β : Type} [DecidableEq β]
    (f : α → Option β) (l : List α) (b : β) :
    (l.filterMap f).count b = l.countP (fun a => f a == some b) := by
  induction l with
  | nil => rfl
  | cons a as ih =>
    rw [List.filterMap_cons, List.countP_cons]
    cases hfa : f a with
    | none => simp [ih]
    | some x => simp [List.count_cons, ih]

theorem postAction_target (st : StoreS) (sender : String) (l : MList) :
    (postAction st sender l).target = l := by
  rw [postAction]
  split <;> rfl

/-- C10: the dispatcher handles a matched list once **per matching address
occurrence** across `to`, `cc` and `bcc`: the multiplicity of a list in
`lookupLists` equals the number of parsed recipient addresses resolving to
it, and the per-list loop performs exactly that many attempts (authorization
check plus notice-or-relay) for it. -/
theorem lookupLists_per_occurrence {E : Type}
    (parseAL : String → Option (List String)) (cfg : Config) (st : StoreS)
    (res : PostAction → Option E) (msg : Message) (l : MList) :
    (lookupLists parseAL cfg msg).count l =
      ([msg.To, msg.Cc, msg.Bcc].flatMap (fun f => (parseAL f).getD [])).countP
        (fun a => lookupList cfg a == some l) ∧
    (handleMessageLoop st msg.From res (lookupLists parseAL cfg msg)
        none).1.countP (fun a => a.target == l) =
      (lookupLists parseAL cfg msg).count l := by
  constructor
  · rw [lookupLists]
    generalize [msg.To, msg.Cc, msg.Bcc] = fields
    induction fields with
    | nil => rfl
    | cons f fs ih =>
      rw [List.flatMap_cons, List.flatMap_cons, List.count_append,
        List.countP_append, ih]
      congr 1
      cases hp : parseAL f with
      | none => rfl
      | some addrs => exact count_filterMap_eq_countP _ _ _
  · rw [handleMessageLoop_spec]
    simp only [List.countP_map]
    rw [List.count_eq_countP]
    congr 1
    funext x
    simp [Function.comp, postAction_target]

end Strew
